import Mathlib

/-!
Shallow embedding of the core of the JSON Snippet Compiler
(`src/index.tsx`): the snippet registry (add / update / delete),
the drag-and-drop reorder engine (`handleDragStart`, `handleDragEnter`,
`handleDrop`, `handleDragEnd`), the serializer effect, the download
filename derivation (`handleDownload`), and the rich-text-to-markdown
converter (`htmlToMarkdown`).

Conventions of the embedding:
* The React state variables (`snippets`, `draggedIndex`, `dragOverIndex`)
  and the `dragItemRef` ref become explicit values threaded through pure
  functions; each `handleX` becomes a function from its inputs and the
  relevant previous state to the new state.
* `Date.now()` is an external clock reading; it is passed to
  `handleAddSnippet` as an explicit `now : Nat` argument, exactly where the
  source reads the clock (`id: Date.now()` in src/index.tsx line 63).
* The TypeScript tagged record `{ id, type, data }` (where the `type` tag
  statically indexes the shape of `data`) becomes `Snippet` with a sum type
  `SnippetData`; the `type` field is recovered by `SnippetData.toType`.
* The DOM parser (`DOMParser.parseFromString`, a browser API outside the
  repository) is not embedded: `htmlToMarkdown` takes the parsed body tree
  as an explicit argument; the concrete trees used for the spec examples
  are the standard HTML parses of those fragments.
-/

namespace JSC

/-- Language enum of the Meta payload (`'English' | 'Tamil'`). -/
inductive Language where
  | english
  | tamil
  deriving DecidableEq, Repr

/-- The string value carried by the TS union, used by the serializer
(which spreads the payload, so it emits the literal string). -/
def Language.toStr : Language → String
  | .english => "English"
  | .tamil => "Tamil"

/-- Meta payload shape (`SnippetDataMap['meta']`, src/index.tsx lines 18-25). -/
structure MetaData where
  title : String
  language : Language
  date : String
  youtubeUrl : String
  pdfUrl : String
  imageUrl : String
  deriving DecidableEq, Repr

/-- The five snippet kinds (`SnippetType`, src/index.tsx line 32). -/
inductive SnippetType where
  | meta
  | verse
  | paragraph
  | prayer
  | lesson
  deriving DecidableEq, Repr

/-- Kind-indexed payloads (`SnippetDataMap`, src/index.tsx lines 17-30),
as a sum type; the constructor plays the role of the `type` tag. -/
inductive SnippetData where
  | meta (d : MetaData)
  | verse (reference text : String)
  | paragraph (content : String)
  | prayer (title text : String)
  | lesson (content : String)
  deriving DecidableEq, Repr

/-- The `type` tag of a payload. -/
def SnippetData.toType : SnippetData → SnippetType
  | .meta _ => .meta
  | .verse _ _ => .verse
  | .paragraph _ => .paragraph
  | .prayer _ _ => .prayer
  | .lesson _ => .lesson

/-- A snippet record (`Snippet`, src/index.tsx lines 34-38): an id plus a
kind-tagged payload. -/
structure Snippet where
  id : Nat
  data : SnippetData
  deriving DecidableEq, Repr

/-- The `snippet.type` field of the source. -/
def Snippet.type (s : Snippet) : SnippetType := s.data.toType

/-- Kind-appropriate default payload (the object literal in
`handleAddSnippet`, src/index.tsx lines 65-71). -/
def defaultData : SnippetType → SnippetData
  | .meta => .meta ⟨"", .english, "", "", "", ""⟩
  | .verse => .verse "" ""
  | .paragraph => .paragraph ""
  | .prayer => .prayer "Prayer" ""
  | .lesson => .lesson ""

/-- The freshly created record of `handleAddSnippet`
(src/index.tsx lines 62-72): its id is the `Date.now()` reading. -/
def newSnippet (now : Nat) (t : SnippetType) : Snippet :=
  ⟨now, defaultData t⟩

/-- `handleAddSnippet` (src/index.tsx lines 61-74): a Meta record is
prepended, every other kind is appended. The source performs no duplicate
check here; the only guard against a second Meta is the disabled button
(see `metaAddButtonDisabled`). -/
def handleAddSnippet (now : Nat) (t : SnippetType) (prev : List Snippet) :
    List Snippet :=
  if t = .meta then newSnippet now t :: prev else prev ++ [newSnippet now t]

/-- `handleUpdateSnippet` (src/index.tsx lines 76-78): replace the payload
of the record with matching id. -/
def handleUpdateSnippet (id : Nat) (d : SnippetData) (prev : List Snippet) :
    List Snippet :=
  prev.map (fun s => if s.id = id then { s with data := d } else s)

/-- `handleDeleteSnippet` (src/index.tsx lines 80-82): keep the records
whose id differs. -/
def handleDeleteSnippet (id : Nat) (prev : List Snippet) : List Snippet :=
  prev.filter (fun s => s.id ≠ id)

/-- `metaExists` (src/index.tsx line 147):
`snippets.some(snippet => snippet.type === 'meta')`. -/
def metaExists (snippets : List Snippet) : Bool :=
  snippets.any (fun s => s.type = .meta)

/-- The `disabled` value of the Meta Data button in `SnippetSelector`
(src/index.tsx line 451): the button is disabled exactly when
`metaExists` holds, which is the sole duplicate-Meta prevention. -/
def metaAddButtonDisabled (snippets : List Snippet) : Bool :=
  metaExists snippets

/-! ## Reorder engine -/

/-- JavaScript `array.splice(i, 0, x)` for a non-negative index: insert `x`
at position `i`, clamped to the end of the array when `i` exceeds its
length (unlike `List.insertIdx`, which leaves the list unchanged there). -/
def spliceInsert {α : Type} : List α → Nat → α → List α
  | l, 0, x => x :: l
  | [], _ + 1, x => [x]
  | a :: l, n + 1, x => a :: spliceInsert l n x

/-- Drag-related component state: the `draggedIndex` / `dragOverIndex`
React state and the `dragItemRef` ref (src/index.tsx lines 43-45), plus the
snippet list they sit next to. -/
structure AppState where
  snippets : List Snippet
  draggedIndex : Option Nat
  dragOverIndex : Option Nat
  dragItemRef : Option Nat
  deriving DecidableEq, Repr

/-- `handleDragStart` (src/index.tsx lines 113-119): record the source
index in the ref and the advisory state. (The `dataTransfer` and CSS-class
effects are presentation only.) -/
def handleDragStart (index : Nat) (s : AppState) : AppState :=
  { s with dragItemRef := some index, draggedIndex := some index }

/-- `handleDragEnter` (src/index.tsx lines 121-124): when a drag is in
progress, record the hovered index as the advisory drop position. -/
def handleDragEnter (index : Nat) (s : AppState) : AppState :=
  if s.dragItemRef = none then s else { s with dragOverIndex := some index }

/-- `handleDragEnd` (src/index.tsx lines 140-145): clear the ref and the
advisory state; the snippet list is untouched. -/
def handleDragEnd (s : AppState) : AppState :=
  { s with dragItemRef := none, draggedIndex := none, dragOverIndex := none }

/-- `handleDrop` (src/index.tsx lines 130-138) acting on the snippet list:
no-op when no drag is in progress or the target equals the source;
otherwise splice the source element out and splice it back in at `index`,
which the source interprets against the list with the element already
removed. The `none` fallback of the inner match is unreachable for an
in-progress drag: `dragItemRef` always holds the index of a rendered item,
hence is in range. -/
def handleDrop (dragItemRef : Option Nat) (index : Nat)
    (prev : List Snippet) : List Snippet :=
  match dragItemRef with
  | none => prev
  | some src =>
    if src = index then prev
    else
      match prev[src]? with
      | some reorderedItem => spliceInsert (prev.eraseIdx src) index reorderedItem
      | none => prev

/-! ## Serializer -/

/-- JSON values, with objects as ordered field lists so that the emitted
field order is part of the model. -/
inductive Json where
  | str (s : String)
  | arr (elems : List Json)
  | obj (fields : List (String × Json))

/-- The per-record branch of the serialization effect
(src/index.tsx lines 48-56): the `switch` maps each record to its
kind-tagged object, and the `default` branch yields `null` (modelled as
`none`), which the subsequent `filter(Boolean)` drops. With the closed
`SnippetType` union the default branch is unreachable, so every payload
constructor here produces `some`. -/
def serializeSnippet : Snippet → Option Json
  | ⟨_, .meta d⟩ =>
    some (.obj [("type", .str "meta"), ("title", .str d.title),
      ("language", .str d.language.toStr), ("date", .str d.date),
      ("youtubeUrl", .str d.youtubeUrl), ("pdfUrl", .str d.pdfUrl),
      ("imageUrl", .str d.imageUrl)])
  | ⟨_, .verse reference text⟩ =>
    some (.obj [("type", .str "verse"), ("reference", .str reference),
      ("text", .str text)])
  | ⟨_, .paragraph content⟩ =>
    some (.obj [("type", .str "paragraph"), ("content", .str content)])
  | ⟨_, .prayer title text⟩ =>
    some (.obj [("type", .str "prayer"), ("title", .str title),
      ("text", .str text)])
  | ⟨_, .lesson content⟩ =>
    some (.obj [("type", .str "lesson"), ("content", .str content)])

/-- The serialized document (the `output` value of the effect at
src/index.tsx lines 47-59): map each record, drop the `null`s
(`filter(Boolean)` is `reduceOption` on the mapped list), and collect into
an array. `JSON.stringify(output, null, 2)` is presentation and is not
modelled. -/
def jsonOutput (snippets : List Snippet) : Json :=
  .arr (snippets.map serializeSnippet).reduceOption

/-- Modelled from the spec (section 4.4): the exact kind-tagged object
shape each record must be emitted as, used to state the serializer claim
as a refinement. -/
def specSerializeEntry : Snippet → Json
  | ⟨_, .meta d⟩ =>
    .obj [("type", .str "meta"), ("title", .str d.title),
      ("language", .str d.language.toStr), ("date", .str d.date),
      ("youtubeUrl", .str d.youtubeUrl), ("pdfUrl", .str d.pdfUrl),
      ("imageUrl", .str d.imageUrl)]
  | ⟨_, .verse reference text⟩ =>
    .obj [("type", .str "verse"), ("reference", .str reference),
      ("text", .str text)]
  | ⟨_, .paragraph content⟩ =>
    .obj [("type", .str "paragraph"), ("content", .str content)]
  | ⟨_, .prayer title text⟩ =>
    .obj [("type", .str "prayer"), ("title", .str title),
      ("text", .str text)]
  | ⟨_, .lesson content⟩ =>
    .obj [("type", .str "lesson"), ("content", .str content)]

/-! ## Download filename derivation -/

/-- JavaScript string interpolation of a possibly-undefined value:
`template ${x}` renders `undefined` as the literal string "undefined"
(the destructuring `const [year, month, day] = ...` leaves missing
positions undefined). -/
def jsShow : Option String → String
  | none => "undefined"
  | some s => s

/-- JavaScript `string.split(sep)` for a single-character separator,
on character lists (structural, so it reduces in the kernel; matches
`String.split` semantics of JS including `"".split(sep) = [""]`). -/
def jsSplitAux (sep : Char) : List Char → List Char → List String
  | [], acc => [String.mk acc.reverse]
  | c :: cs, acc =>
    if c = sep then String.mk acc.reverse :: jsSplitAux sep cs []
    else jsSplitAux sep cs (c :: acc)

/-- JavaScript `s.split(sep)` for a one-character separator. -/
def jsSplit (sep : Char) (s : String) : List String :=
  jsSplitAux sep s.data []

/-- The filename computed by `handleDownload` (src/index.tsx lines 84-102):
find the first Meta record; if present and its date is truthy (non-empty),
split the date on `-`, destructure into year, month, day (missing
positions become undefined), and build `day-month-year-LANG.json`.
None of these operations throws, so the `try/catch` around them never
fires and cannot restore the `content.json` default. The final `.meta`
mismatch branch is unreachable because `find?` matched on the type tag. -/
def handleDownloadFilename (snippets : List Snippet) : String :=
  match snippets.find? (fun s => s.type = .meta) with
  | none => "content.json"
  | some metaSnippet =>
    match metaSnippet.data with
    | .meta d =>
      if d.date = "" then "content.json"
      else
        let parts := jsSplit '-' d.date
        let year := parts[0]?
        let month := parts[1]?
        let day := parts[2]?
        let formattedDate :=
          jsShow day ++ "-" ++ jsShow month ++ "-" ++ jsShow year
        let langCode := if d.language = .tamil then "TA" else "EN"
        formattedDate ++ "-" ++ langCode ++ ".json"
    | _ => "content.json"

/-! ## Rich-text-to-markdown converter -/

/-- A parsed HTML node as the converter sees it: a text node
(`nodeType === 3`) or an element with an (uppercase, as the DOM reports
`tagName`) tag and child nodes. Comment and other node kinds, which `walk`
maps to the empty string, do not occur in the example fragments and are
not modelled. -/
inductive HNode where
  | text (s : String)
  | elem (tag : String) (children : List HNode)

/-- Whether a node is a `script` or `style` element (what the selector
`'script, style'` matches). -/
def isScriptOrStyle : HNode → Bool
  | .elem tag _ => tag = "SCRIPT" || tag = "STYLE"
  | .text _ => false

mutual

/-- Effect of `doc.querySelectorAll('script, style').forEach(el =>
el.remove())` (src/index.tsx line 296) on a node: every script/style
element anywhere below it is removed. -/
def stripScriptStyle : HNode → HNode
  | .text s => .text s
  | .elem tag cs => .elem tag (stripScriptStyleList cs)

/-- `stripScriptStyle` over a child list. -/
def stripScriptStyleList : List HNode → List HNode
  | [] => []
  | n :: ns =>
    if isScriptOrStyle n then stripScriptStyleList ns
    else stripScriptStyle n :: stripScriptStyleList ns

end

/-- The ASCII characters of the JavaScript whitespace class `\s` (also
matched by `String.prototype.trim`). JS additionally treats some Unicode
code points as whitespace; none occurs in the strings of this development.
-/
def isJsWs (c : Char) : Bool :=
  c = ' ' || c = '\t' || c = '\n' || c = '\r' || c = '\x0b' || c = '\x0c'

/-- JavaScript `string.trim()`: drop leading and trailing whitespace. -/
def jsTrim (s : String) : String :=
  String.mk (((s.data.dropWhile isJsWs).reverse.dropWhile isJsWs).reverse)

mutual

/-- The recursive renderer `walk` (src/index.tsx lines 298-324): a text
node emits its text content; an element renders the concatenation of its
children and then wraps/transforms it by tag. -/
def walk : HNode → String
  | .text s => s
  | .elem tag cs =>
    let children := walkList cs
    match tag with
    | "STRONG" | "B" => "**" ++ children ++ "**"
    | "EM" | "I" => "*" ++ children ++ "*"
    | "P" => "\n" ++ children ++ "\n"
    | "LI" => "- " ++ jsTrim children ++ "\n"
    | "UL" | "OL" => jsTrim children ++ "\n"
    | "BR" => "\n"
    | _ => children

/-- `Array.from(element.childNodes).map(walk).join('')`. -/
def walkList : List HNode → String
  | [] => ""
  | n :: ns => walk n ++ walkList ns

end

/-- Index of the last newline in a character list, if any. -/
def lastNewlineIdx : List Char → Option Nat
  | [] => none
  | c :: cs =>
    match lastNewlineIdx cs with
    | some i => some (i + 1)
    | none => if c = '\n' then some 0 else none

/-- One left-to-right pass of `markdown.replace(/\n\s*\n/g, '\n\n')`
(src/index.tsx line 329) on a character list, with explicit fuel (one unit
per consumed character suffices, and the search restarts after each
replacement exactly as `replace` does).  A match starts at a newline; the
greedy `\s*` with the mandatory final `\n` makes the match run to the last
newline inside the maximal whitespace run that follows; the match is
replaced by a blank line and scanning resumes after it. -/
def collapseAux : Nat → List Char → List Char
  | 0, cs => cs
  | _ + 1, [] => []
  | fuel + 1, c :: cs =>
    if c = '\n' then
      match lastNewlineIdx (cs.takeWhile isJsWs) with
      | some k => '\n' :: '\n' :: collapseAux fuel (cs.drop (k + 1))
      | none => c :: collapseAux fuel cs
    else c :: collapseAux fuel cs

/-- `markdown.replace(/\n\s*\n/g, '\n\n')` as a string function. -/
def collapseNewlineRuns (s : String) : String :=
  String.mk (collapseAux s.data.length s.data)

/-- `htmlToMarkdown` (src/index.tsx lines 290-332). The falsy check
`if (!html) return ''` is the empty-string test; `DOMParser` (a browser
API, always producing a document for `text/html` input) is represented by
the explicitly supplied parsed `body`; then script/style elements are
removed, the tree is rendered by `walk`, newline runs are collapsed and
the result trimmed. -/
def htmlToMarkdown (html : String) (body : HNode) : String :=
  if html = "" then ""
  else jsTrim (collapseNewlineRuns (walk (stripScriptStyle body)))

/-! ## Operation traces (id assignment over a collection lifetime) -/

/-- One user-driven mutation of the collection: an add request together
with the `Date.now()` reading observed at that moment, or a delete
request. -/
inductive Op where
  | add (now : Nat) (t : SnippetType)
  | del (id : Nat)
  deriving DecidableEq, Repr

/-- Apply one operation to the pair of (current snippet list, log of every
id ever assigned). An add runs `handleAddSnippet` and logs the id of the
record it created; a delete runs `handleDeleteSnippet`. -/
def applyOp (s : List Snippet × List Nat) : Op → List Snippet × List Nat
  | .add now t => (handleAddSnippet now t s.1, s.2 ++ [(newSnippet now t).id])
  | .del id => (handleDeleteSnippet id s.1, s.2)

/-- Run a trace of operations from the empty collection. -/
def runOps (ops : List Op) : List Snippet × List Nat :=
  ops.foldl applyOp ([], [])

/-- Every id assigned during a trace, in order of assignment. -/
def assignedIds (ops : List Op) : List Nat :=
  (runOps ops).2

/-- The clock readings observed by the add operations of a trace. -/
def addTimes (ops : List Op) : List Nat :=
  ops.filterMap (fun op =>
    match op with
    | .add now _ => some now
    | .del _ => none)

/-- A three-record collection used to instantiate the reorder theorems. -/
def demoSnippets : List Snippet :=
  [⟨1, .paragraph "a"⟩, ⟨2, .verse "John 3:16" "For God so loved"⟩,
   ⟨3, .lesson "c"⟩]

/-! ## Helper lemmas -/

theorem spliceInsert_perm {α : Type} (l : List α) (i : Nat) (x : α) :
    (spliceInsert l i x).Perm (x :: l) := by
  induction l generalizing i with
  | nil => cases i <;> simp [spliceInsert]
  | cons a l ih =>
    cases i with
    | zero => simp [spliceInsert]
    | succ n =>
      exact ((ih n).cons a).trans (List.Perm.swap x a l)

theorem getElem?_spliceInsert_self {α : Type} (l : List α) (i : Nat) (x : α)
    (h : i ≤ l.length) : (spliceInsert l i x)[i]? = some x := by
  induction l generalizing i with
  | nil =>
    have : i = 0 := Nat.le_zero.mp h
    subst this
    simp [spliceInsert]
  | cons a l ih =>
    cases i with
    | zero => simp [spliceInsert]
    | succ n =>
      simp only [spliceInsert, List.getElem?_cons_succ]
      exact ih n (by simpa using h)

theorem eraseIdx_spliceInsert_self {α : Type} (l : List α) (i : Nat) (x : α)
    (h : i ≤ l.length) : (spliceInsert l i x).eraseIdx i = l := by
  induction l generalizing i with
  | nil =>
    have : i = 0 := Nat.le_zero.mp h
    subst this
    simp [spliceInsert]
  | cons a l ih =>
    cases i with
    | zero => simp [spliceInsert]
    | succ n =>
      simp only [spliceInsert, List.eraseIdx_cons_succ, List.cons.injEq,
        true_and]
      exact ih n (by simpa using h)

theorem perm_get_cons_eraseIdx {α : Type} (l : List α) (i : Nat)
    (h : i < l.length) : l.Perm (l.get ⟨i, h⟩ :: l.eraseIdx i) := by
  induction l generalizing i with
  | nil => simp at h
  | cons a l ih =>
    cases i with
    | zero => simp
    | succ n =>
      have hn : n < l.length := by simpa using h
      have step := (ih n hn).cons a
      simpa using step.trans (List.Perm.swap (l.get ⟨n, hn⟩) a (l.eraseIdx n))

theorem foldl_applyOp_snd (ops : List Op) :
    ∀ acc : List Snippet × List Nat,
      (ops.foldl applyOp acc).2 = acc.2 ++ addTimes ops := by
  induction ops with
  | nil => intro acc; simp [addTimes]
  | cons op ops ih =>
    intro acc
    cases op with
    | add now t =>
      simp [List.foldl_cons, applyOp, addTimes, List.filterMap_cons, ih,
        newSnippet]
    | del id =>
      simp [List.foldl_cons, applyOp, addTimes, List.filterMap_cons, ih]

theorem assignedIds_eq_addTimes (ops : List Op) :
    assignedIds ops = addTimes ops := by
  simpa [assignedIds, runOps] using foldl_applyOp_snd ops ([], [])

theorem serializeSnippet_eq_some (s : Snippet) :
    serializeSnippet s = some (specSerializeEntry s) := by
  obtain ⟨id, d⟩ := s
  cases d <;> rfl

/-! ## Claim theorems -/

/-- C1 (counterexample): with a Meta record already present
(`metaExists` is true), a further `handleAddSnippet` of kind Meta does not
fail and does not leave the collection unchanged — it prepends a second
Meta record. No `DuplicateMetaError` exists anywhere in the code. -/
theorem addMeta_despite_existing_meta_mutates_state :
    metaExists [⟨0, defaultData .meta⟩] = true ∧
    handleAddSnippet 1 .meta [⟨0, defaultData .meta⟩] =
      [⟨1, defaultData .meta⟩, ⟨0, defaultData .meta⟩] ∧
    handleAddSnippet 1 .meta [⟨0, defaultData .meta⟩] ≠
      [⟨0, defaultData .meta⟩] := by
  decide

/-- C1 (amended): duplicate-Meta prevention lives only in the UI — when a
Meta record exists the Meta-add button is disabled, so no add(Meta)
request is issued through the UI; `handleAddSnippet` itself performs no
duplicate check and, if invoked anyway, prepends a second Meta record
without reporting any error. -/
theorem duplicate_meta_guard_is_button_disabling
    (l : List Snippet) (now : Nat) (h : metaExists l = true) :
    metaAddButtonDisabled l = true ∧
    handleAddSnippet now .meta l = newSnippet now .meta :: l := by
  exact ⟨h, by simp [handleAddSnippet]⟩

/-- Witness for C1's amended theorem at a one-Meta collection. -/
theorem duplicate_meta_guard_is_button_disabling_witness :
    metaAddButtonDisabled [⟨0, defaultData .meta⟩] = true ∧
    handleAddSnippet 1 .meta [⟨0, defaultData .meta⟩] =
      newSnippet 1 .meta :: [⟨0, defaultData .meta⟩] :=
  duplicate_meta_guard_is_button_disabling [⟨0, defaultData .meta⟩] 1
    (by decide)

/-- C2: dropping on the source index leaves the list unchanged; for a
different target index the result is the splice-out / splice-in of the
source element at the target position in post-removal coordinates, the
moved element ends up at position `tgt`, and erasing it there recovers
exactly the other elements in their original relative order. -/
theorem handleDrop_semantics (l : List Snippet) (src tgt : Nat)
    (h1 : src < l.length) (h2 : tgt < l.length) :
    (src = tgt → handleDrop (some src) tgt l = l) ∧
    (src ≠ tgt →
      handleDrop (some src) tgt l =
        spliceInsert (l.eraseIdx src) tgt (l.get ⟨src, h1⟩) ∧
      (handleDrop (some src) tgt l)[tgt]? = some (l.get ⟨src, h1⟩) ∧
      (handleDrop (some src) tgt l).eraseIdx tgt = l.eraseIdx src) := by
  have hget : l[src]? = some (l.get ⟨src, h1⟩) := by
    simp [List.getElem?_eq_getElem h1]
  constructor
  · intro h
    simp [handleDrop, h]
  · intro hne
    have hdrop : handleDrop (some src) tgt l =
        spliceInsert (l.eraseIdx src) tgt (l.get ⟨src, h1⟩) := by
      simp [handleDrop, hne, hget]
    have hlen : tgt ≤ (l.eraseIdx src).length := by
      rw [List.length_eraseIdx_of_lt h1]
      omega
    refine ⟨hdrop, ?_, ?_⟩
    · rw [hdrop]
      exact getElem?_spliceInsert_self _ _ _ hlen
    · rw [hdrop]
      exact eraseIdx_spliceInsert_self _ _ _ hlen

/-- Witness for C2 on the three-record demo collection, moving the first
record to the last position. -/
theorem handleDrop_semantics_witness :
    handleDrop (some 0) 2 demoSnippets =
      spliceInsert (demoSnippets.eraseIdx 0) 2 (demoSnippets.get ⟨0, by decide⟩) ∧
    (handleDrop (some 0) 2 demoSnippets)[2]? =
      some (demoSnippets.get ⟨0, by decide⟩) ∧
    (handleDrop (some 0) 2 demoSnippets).eraseIdx 2 =
      demoSnippets.eraseIdx 0 :=
  (handleDrop_semantics demoSnippets 0 2 (by decide) (by decide)).2
    (by decide)

/-- C3: adding a Meta record inserts the new record at position 0 and
adding any other kind appends it at the end; in both cases the existing
records are untouched. -/
theorem handleAddSnippet_positions (l : List Snippet) (now : Nat)
    (t : SnippetType) :
    handleAddSnippet now .meta l = newSnippet now .meta :: l ∧
    (t ≠ .meta → handleAddSnippet now t l = l ++ [newSnippet now t]) := by
  constructor
  · simp [handleAddSnippet]
  · intro h
    simp [handleAddSnippet, h]

/-- Witness for C3 with a non-Meta kind on a nonempty collection. -/
theorem handleAddSnippet_positions_witness :
    handleAddSnippet 7 .verse demoSnippets =
      demoSnippets ++ [newSnippet 7 .verse] :=
  (handleAddSnippet_positions demoSnippets 7 .verse).2 (by decide)

/-- C4 (counterexample): two add operations that observe the same
`Date.now()` reading (the same millisecond) assign the same id, so the
ids ever assigned over the collection's lifetime are not pairwise
distinct. -/
theorem same_clock_adds_assign_equal_ids :
    assignedIds [.add 5 .verse, .add 5 .verse] = [5, 5] ∧
    ¬ (assignedIds [.add 5 .verse, .add 5 .verse]).Nodup := by
  decide

/-- C4 (amended): an id is the raw `Date.now()` reading at creation, so
the ids assigned over a trace are pairwise distinct provided the clock
readings observed by the add operations are pairwise distinct (no two
adds in the same millisecond); deletion never influences id assignment. -/
theorem assignedIds_nodup_of_nodup_addTimes (ops : List Op)
    (h : (addTimes ops).Nodup) : (assignedIds ops).Nodup := by
  rw [assignedIds_eq_addTimes]
  exact h

/-- Witness for C4's amended theorem on a trace with distinct clock
readings, including a delete between the adds. -/
theorem assignedIds_nodup_of_nodup_addTimes_witness :
    (assignedIds [.add 1 .verse, .del 1, .add 2 .meta]).Nodup :=
  assignedIds_nodup_of_nodup_addTimes [.add 1 .verse, .del 1, .add 2 .meta]
    (by decide)

/-- C5: the download filename is `content.json` when no Meta record exists
or its date is empty, and `07-03-2024-TA.json` for a Tamil Meta record
dated 2024-03-07; but for a malformed date the code does NOT fall back to
`content.json` (contradicting the claim and the code's own comment at
src/index.tsx line 100): `split('-')` never throws, and the missing
destructured positions render as the string "undefined". -/
theorem malformed_date_filename_cases :
    handleDownloadFilename [] = "content.json" ∧
    handleDownloadFilename [⟨0, .meta ⟨"", .english, "", "", "", ""⟩⟩] =
      "content.json" ∧
    handleDownloadFilename [⟨0, .meta ⟨"", .tamil, "2024-03-07", "", "", ""⟩⟩] =
      "07-03-2024-TA.json" ∧
    handleDownloadFilename [⟨0, .meta ⟨"", .english, "garbage", "", "", ""⟩⟩] =
      "undefined-undefined-garbage-EN.json" ∧
    handleDownloadFilename [⟨0, .meta ⟨"", .english, "garbage", "", "", ""⟩⟩] ≠
      "content.json" := by
  decide

/-- C6: the serialized document is exactly the input records mapped, in
registry order, to the kind-tagged object shapes the spec prescribes
(field order included); nothing is reordered, dropped or added. -/
theorem jsonOutput_matches_spec_shapes (snippets : List Snippet) :
    jsonOutput snippets = Json.arr (snippets.map specSerializeEntry) := by
  unfold jsonOutput
  congr 1
  induction snippets with
  | nil => rfl
  | cons s l ih =>
    simp [serializeSnippet_eq_some, List.reduceOption_cons_of_some, ih]

/-- C7: the converter satisfies the spec's example equations — bold wraps
in double asterisks, list items become dashed lines, script content is
excluded entirely, and adjacent paragraphs collapse to a single blank
line before trimming. Each call is given the standard HTML parse tree of
the fragment, since `DOMParser` is a browser API outside the repository. -/
theorem htmlToMarkdown_spec_examples :
    htmlToMarkdown "<b>Hi</b> there"
      (.elem "BODY" [.elem "B" [.text "Hi"], .text " there"]) =
      "**Hi** there" ∧
    htmlToMarkdown "<ul><li>one</li><li>two</li></ul>"
      (.elem "BODY" [.elem "UL"
        [.elem "LI" [.text "one"], .elem "LI" [.text "two"]]]) =
      "- one\n- two" ∧
    htmlToMarkdown "<script>evil()</script>Safe"
      (.elem "BODY" [.elem "SCRIPT" [.text "evil()"], .text "Safe"]) =
      "Safe" ∧
    htmlToMarkdown "<p>A</p><p>B</p>"
      (.elem "BODY" [.elem "P" [.text "A"], .elem "P" [.text "B"]]) =
      "A\n\nB" := by
  decide

/-- C8: on empty input the converter returns the empty string, whatever
the parser would have produced; and being a total Lean function into
`String`, it returns a string on every input and can raise nothing. -/
theorem htmlToMarkdown_empty_input (body : HNode) :
    htmlToMarkdown "" body = "" := by
  simp [htmlToMarkdown]

/-- C9: beginning a drag, hovering (drag-enter) and cancelling (drag-end)
all leave the snippet list unchanged; they only update the advisory
state (`draggedIndex`, `dragOverIndex`, `dragItemRef`). -/
theorem drag_lifecycle_preserves_snippets (s : AppState) (i j : Nat) :
    (handleDragStart i s).snippets = s.snippets ∧
    (handleDragEnter j s).snippets = s.snippets ∧
    (handleDragEnd s).snippets = s.snippets := by
  refine ⟨rfl, ?_, rfl⟩
  unfold handleDragEnter
  split <;> rfl

/-- C10: for an in-progress drag (source index within the list) and any
target index, including out-of-range ones that `splice` clamps, the
dropped list is a permutation of the original — same length, same
multiset of records, every record untouched. -/
theorem handleDrop_perm (l : List Snippet) (src tgt : Nat)
    (h : src < l.length) : (handleDrop (some src) tgt l).Perm l := by
  by_cases heq : src = tgt
  · simp [handleDrop, heq]
  · have hget : l[src]? = some (l.get ⟨src, h⟩) := by
      simp [List.getElem?_eq_getElem h]
    have hdrop : handleDrop (some src) tgt l =
        spliceInsert (l.eraseIdx src) tgt (l.get ⟨src, h⟩) := by
      simp [handleDrop, heq, hget]
    rw [hdrop]
    exact (spliceInsert_perm _ _ _).trans (perm_get_cons_eraseIdx l src h).symm

/-- Witness for C10 with an out-of-range target index, exercising the
splice clamp. -/
theorem handleDrop_perm_witness :
    (handleDrop (some 0) 5 demoSnippets).Perm demoSnippets :=
  handleDrop_perm demoSnippets 0 5 (by decide)

end JSC
